import Mathlib

/-!
# Verification of the `QuickYAML` store (quick-yaml.db)

Shallow embedding of the `QuickYAML` class (src/unnamed/part_003, current
variant: the one with `purge`/`push`/`pull`/`map`) and proofs about it.

Modelling decisions, stated once here:

* A YAML value (`YAMLTypes` in src/src/types.ts:
  `string | number | boolean | YAMLTypes[] | { [key: string]: YAMLTypes } | null`)
  is the inductive `Value` below.  Numbers are modelled as integers.

* A document (`YAMLStructure`, a plain JS object keyed by strings, preserving
  insertion order) is `Doc := List (String × Value)`.

* The external serializer (js-yaml, not part of this repository) is treated,
  as the specification directs, as a pure `encode`/`decode` pair with
  `decode ∘ encode = id` and `decode` of empty bytes yielding the empty
  document.  The on-disk file content is therefore represented up to this
  bijection by `Option Doc`: `none` stands for the zero-length file, `some d`
  for the serializer's encoding of the (non-empty) document `d`.  The
  byte-level special case of `_write` (a zero-key document is written as the
  empty string, bypassing the serializer) is additionally modelled by
  `writeBytes`, which is parametric in the serializer.

* The store re-reads the file on every operation and writes it back whole on
  every mutation; a `writes` counter on the state `FS` records each call of
  the private `_write` (both of its branches call `fs.writeFileSync`).

* JS strict equality (`===`, and `Array.prototype.includes`' SameValueZero,
  which coincide on the integer numbers used here) between a value freshly
  parsed from the file and a caller-supplied argument is `jsStrictEq`:
  scalars compare by value; a sequence or mapping is an object compared by
  reference, and a freshly parsed object is never the same reference as a
  caller-supplied one, so composite values never compare equal.
-/

/-- The recursive YAML value type (`YAMLTypes` of src/src/types.ts). -/
inductive Value where
  | null : Value
  | bool : Bool → Value
  | num : Int → Value
  | str : String → Value
  | seq : List Value → Value
  | map : List (String × Value) → Value

/-- A document: a JS object from variable names to values, in insertion order. -/
abbrev Doc := List (String × Value)

/-- JS truthiness of a value (`x || undefined` tests this). -/
def jsTruthy : Value → Bool
  | .null => false
  | .bool b => b
  | .num n => n != 0
  | .str s => s != ""
  | .seq _ => true
  | .map _ => true

/-- JS strict equality between a freshly parsed value and a caller-supplied
one: scalars by value; composite values are distinct object references and
never compare equal (see the header comment). -/
def jsStrictEq : Value → Value → Bool
  | .null, .null => true
  | .bool a, .bool b => a == b
  | .num a, .num b => a == b
  | .str a, .str b => a == b
  | _, _ => false

/-- Source: `variable in obj` for a document. -/
def hasDoc (d : Doc) (k : String) : Bool :=
  d.any (fun p => p.1 == k)

/-- Source: `obj[variable]`, `undefined` (`none`) when the key is absent. -/
def getDoc (d : Doc) (k : String) : Option Value :=
  (d.find? (fun p => p.1 == k)).map Prod.snd

/-- Source: `obj[variable] = value`: update in place when the key exists (JS keeps the
key's position), append otherwise. -/
def setDoc (d : Doc) (k : String) (v : Value) : Doc :=
  if hasDoc d k then d.map (fun p => if p.1 == k then (p.1, v) else p)
  else d ++ [(k, v)]

/-- Source: `delete obj[variable]` (a no-op when the key is absent). -/
def deleteDoc (d : Doc) (k : String) : Doc :=
  d.filter (fun p => p.1 != k)

/-- Source: `Object.keys(obj)`. -/
def keysDoc (d : Doc) : List String := d.map Prod.fst

/-- Source: `Object.values(obj)`. -/
def valuesDoc (d : Doc) : List Value := d.map Prod.snd

/-- The store state: the file content (up to the serializer bijection, see
the header comment) and a counter of `fs.writeFileSync` calls. -/
structure FS where
  file : Option Doc
  writes : Nat

/-- Source: `QuickYAML._write(obj)`: a document with zero keys is written as the
zero-length file (`none`), bypassing the serializer; otherwise the document
is encoded and written.  Both branches perform exactly one file write. -/
def FS.write (st : FS) (d : Doc) : FS :=
  { file := if d.length ≤ 0 then none else some d, writes := st.writes + 1 }

/-- Source: `QuickYAML._load()`: the zero-length file parses to `undefined`, which
`data || {}` turns into the empty document; otherwise decode the bytes. -/
def FS.load (st : FS) : Doc :=
  match st.file with
  | none => []
  | some d => d

/-- The byte-level content written by `_write` for a given serializer `ser`:
`if (size <= 0) writeFileSync(path, '', 'utf-8') else writeFileSync(path, jsyaml.dump(obj), 'utf-8')`. -/
def writeBytes (ser : Doc → String) (d : Doc) : String :=
  if d.length ≤ 0 then "" else ser d

/-- Source: `QuickYAML.toJSON()` = `this._load()`. -/
def toJSONStore (st : FS) : Doc := st.load

/-- Source: `QuickYAML.has(variable)`. -/
def hasStore (st : FS) (k : String) : Bool := hasDoc st.load k

/-- Source: `QuickYAML.get(variable)`. -/
def getStore (st : FS) (k : String) : Option Value := getDoc st.load k

/-- Source: `QuickYAML.set(variable, value)` (the resulting state; the method itself
returns `this` for chaining). -/
def setStore (st : FS) (k : String) (v : Value) : FS :=
  st.write (setDoc st.load k v)

/-- Source: `QuickYAML.delete(variable)`: writes only when the key was present. -/
def deleteStore (st : FS) (k : String) : FS :=
  if hasDoc st.load k then st.write (deleteDoc st.load k) else st

/-- Source: `QuickYAML.purge(...variables)`: load once, delete every present key,
write once at the end unconditionally. -/
def purgeStore (st : FS) (ks : List String) : FS :=
  st.write (ks.foldl deleteDoc st.load)

/-- Source: `QuickYAML.clear()` = `this._write({})`. -/
def clearStore (st : FS) : FS := st.write []

/-- Source: `QuickYAML.keys()`. -/
def keysStore (st : FS) : List String := keysDoc st.load

/-- Source: `QuickYAML.values()`. -/
def valuesStore (st : FS) : List Value := valuesDoc st.load

/-- Source: `QuickYAML.entries()`. -/
def entriesStore (st : FS) : List (String × Value) := st.load

/-- Source: `QuickYAML.size` = `this.keys().length`. -/
def sizeStore (st : FS) : Nat := (keysStore st).length

/-- Source: `x || undefined` applied to an element lookup that may itself be
`undefined`: a falsy value collapses to `undefined`. -/
def jsOrUndefined (x : Option Value) : Option Value :=
  match x with
  | some v => if jsTruthy v then some v else none
  | none => none

/-- Source: `QuickYAML.first()` = `this.values()[0] || undefined`. -/
def firstStore (st : FS) : Option Value :=
  jsOrUndefined (valuesStore st)[0]?

/-- Source: `QuickYAML.last()` = `this.values()[this.size - 1] || undefined`. -/
def lastStore (st : FS) : Option Value :=
  jsOrUndefined (valuesStore st)[sizeStore st - 1]?

/-- Source: `QuickYAML.indexOf(variable)` = `this.keys().indexOf(variable)`. -/
def indexOfStore (st : FS) (k : String) : Int :=
  match (keysStore st).indexOf? k with
  | some i => (i : Int)
  | none => -1

/-- The sequence of `(value, key, index)` invocations `QuickYAML.forEach(func)`
performs: the document is loaded once (`const obj = this.toJSON()`), then
`for (const variable in obj) func(obj[variable], variable, i++)`. -/
def forEachCalls (st : FS) : List (Value × String × Nat) :=
  st.load.enum.map (fun p => (p.2.2, p.2.1, p.1))

/-- The sequence of `(value, key, index)` invocations `QuickYAML.map(func)`
performs.  The source builds `Array.from({ length: this.size }, () => ...)`
with a closure over a counter `currentIndex`; at step `j` (zero-based) it
re-reads `keys = this.keys()`, and calls
`func(this.get(keys[currentIndex - 1]), keys[currentIndex], currentIndex - 1)`,
i.e. the value at position `j` but the key at position `j + 1` (`none` models
the out-of-range `undefined`).  The state is unchanged during iteration, so
the per-step re-reads all see the same document. -/
def mapCalls (st : FS) : List (Option Value × Option String × Nat) :=
  (List.range (sizeStore st)).map (fun j =>
    (match (keysStore st)[j]? with
     | some k => getStore st k
     | none => none,
     (keysStore st)[j + 1]?,
     j))

/-- Source: `QuickYAML.push(variable, ...values)`: load; absent key returns `-1` with
no write; otherwise `(data[variable] as any[]).push(...values)` throws a
`TypeError` before any write when the stored value is not an array, else the
appended document is written and the new length returned. -/
def pushStore (st : FS) (k : String) (vs : List Value) : Except String Int × FS :=
  let data := st.load
  if !hasDoc data k then (.ok (-1), st)
  else
    match getDoc data k with
    | some (.seq xs) =>
        (.ok ((xs.length + vs.length : Nat) : Int),
         st.write (setDoc data k (.seq (xs ++ vs))))
    | _ => (.error "TypeError: data[variable].push is not a function", st)

/-- One iteration of `pull`'s loop:
`if (data[variable].includes(value)) data[variable] = data[variable].filter((v) => v !== value)`.
`includes` uses SameValueZero and the filter uses `!==`; on the values modelled
here (integer numbers) both coincide with `jsStrictEq`. -/
def pullOnce (xs : List Value) (v : Value) : List Value :=
  if xs.any (fun x => jsStrictEq x v) then xs.filter (fun x => !jsStrictEq x v)
  else xs

/-- Source: `QuickYAML.pull(variable, ...values)`: load; absent key returns `-1` with
no write; otherwise each given value present in the stored array has all its
occurrences removed (`pullOnce` per given value), the document is written
once unconditionally, and the resulting length is returned.  A non-array
stored value makes the first `.includes` call throw before any write (the
degenerate corner of an empty `values` list on a non-array value, which no
contract covers, is folded into the same error branch). -/
def pullStore (st : FS) (k : String) (vs : List Value) : Except String Int × FS :=
  let data := st.load
  if !hasDoc data k then (.ok (-1), st)
  else
    match getDoc data k with
    | some (.seq xs) =>
        let xs2 := vs.foldl pullOnce xs
        (.ok ((xs2.length : Nat) : Int),
         st.write (setDoc data k (.seq xs2)))
    | _ => (.error "TypeError: data[variable].includes is not a function", st)

/-- The two construction-time checks, in source order:
`if (!fs.existsSync(this.path)) throw ...` then
`if (!(this.path.endsWith('.yaml') || this.path.endsWith('.yml'))) throw ...`. -/
inductive CtorError where
  | notFound
  | invalidExtension
deriving DecidableEq

/-- JS `String.prototype.endsWith`, as a suffix test on the characters (the
paths involved are compared code point by code point). -/
def endsWithJS (s suffix : String) : Bool :=
  suffix.data.isSuffixOf s.data

/-- The accepted extensions:
`this.path.endsWith('.yaml') || this.path.endsWith('.yml')`. -/
def yamlExt (path : String) : Bool :=
  endsWithJS path ".yaml" || endsWithJS path ".yml"

/-- Result of the constructor's check phase given whether the file exists. -/
def ctorChecks (pathExists : Bool) (path : String) : Option CtorError :=
  if !pathExists then some .notFound
  else if !yamlExt path then some .invalidExtension
  else none

/-- One entry of `options.model.defaultModelValues` (`QuickYAMLModelDefValue`);
the field is called `variable` in the source, a Lean keyword. -/
structure DefEntry where
  varName : String
  value : Value

/-- The default-value seeding the constructor performs after its checks:
`if ((options?.model?.defaultModelValues.length || 0) > 0 && options?.model?.setValuesOnReady)`
then, per entry in declared order,
`if (this.has(model.variable)) continue; this.set(model.variable, model.value)`;
each `has`/`set` re-reads (and `set` rewrites) the file, hence the fold over
the store state. -/
def ctorSeed (st : FS) (setValuesOnReady : Bool) (defs : List DefEntry) : FS :=
  if 0 < defs.length && setValuesOnReady then
    defs.foldl
      (fun s e => if hasStore s e.varName then s else setStore s e.varName e.value)
      st
  else st

/-- The byte content a file state corresponds to under a serializer `ser`
(see the header comment: `none` is the zero-length file). -/
def fileBytes (ser : Doc → String) (f : Option Doc) : String :=
  match f with
  | none => ""
  | some d => ser d

/-! ## Helper lemmas -/

theorem FS.load_write (st : FS) (d : Doc) : (st.write d).load = d := by
  cases d <;> simp [FS.write, FS.load]

theorem FS.writes_write (st : FS) (d : Doc) : (st.write d).writes = st.writes + 1 := rfl

theorem hasDoc_of_getDoc_eq_some {d : Doc} {k : String} {v : Value}
    (h : getDoc d k = some v) : hasDoc d k = true := by
  unfold getDoc at h
  obtain ⟨p, hp, hfind⟩ := Option.map_eq_some'.mp h
  have hmem := List.mem_of_find?_eq_some hp
  have hpk := List.find?_some hp
  exact List.any_eq_true.mpr ⟨p, hmem, hpk⟩

theorem getDoc_eq_none_of_hasDoc_eq_false {d : Doc} {k : String}
    (h : hasDoc d k = false) : getDoc d k = none := by
  unfold hasDoc at h
  have h2 : d.find? (fun p => p.1 == k) = none :=
    List.find?_eq_none.mpr (fun x hx => by simpa using List.any_eq_false.mp h x hx)
  simp [getDoc, h2]

theorem hasDoc_eq_false_of_not_mem_keys {d : Doc} {k : String}
    (h : k ∉ keysDoc d) : hasDoc d k = false := by
  unfold hasDoc
  rw [List.any_eq_false]
  intro p hp
  simp only [beq_iff_eq]
  intro hk
  exact h (hk ▸ List.mem_map_of_mem Prod.fst hp)

theorem setDoc_comp_key (k k2 : String) (v : Value) :
    ((fun p : String × Value => p.1 == k2) ∘
      (fun p : String × Value => if p.1 == k then (p.1, v) else p)) =
    (fun p : String × Value => p.1 == k2) := by
  funext p
  by_cases hc : p.1 = k <;> simp [hc]

theorem getDoc_setDoc_self (d : Doc) (k : String) (v : Value) :
    getDoc (setDoc d k v) k = some v := by
  unfold setDoc
  by_cases h : hasDoc d k
  · rw [if_pos h]
    unfold getDoc
    rw [List.find?_map, setDoc_comp_key k k v]
    obtain ⟨q, hq, hqk⟩ := List.any_eq_true.mp h
    cases hfind : d.find? (fun p => p.1 == k) with
    | none => exact absurd hqk (by simpa using List.find?_eq_none.mp hfind q hq)
    | some q2 =>
      have hq2 := List.find?_some hfind
      simp only [beq_iff_eq] at hq2
      simp [hq2]
  · rw [if_neg h]
    have hf : hasDoc d k = false := by simpa using h
    unfold hasDoc at hf
    have h2 : d.find? (fun p => p.1 == k) = none :=
      List.find?_eq_none.mpr (fun x hx => by simpa using List.any_eq_false.mp hf x hx)
    simp [getDoc, List.find?_append, h2]

theorem getDoc_setDoc_ne (d : Doc) (k k2 : String) (v : Value) (h : k2 ≠ k) :
    getDoc (setDoc d k v) k2 = getDoc d k2 := by
  unfold setDoc
  by_cases hk : hasDoc d k
  · rw [if_pos hk]
    unfold getDoc
    rw [List.find?_map, setDoc_comp_key k k2 v]
    cases hfind : d.find? (fun p => p.1 == k2) with
    | none => simp
    | some q =>
      have hq := List.find?_some hfind
      simp only [beq_iff_eq] at hq
      have hqk : ¬(q.1 = k) := fun hc => h (by rw [← hq, hc])
      simp [hqk]
  · rw [if_neg hk]
    have hk2 : ¬(((k, v) : String × Value).1 == k2) = true := by
      simp only [beq_iff_eq]
      exact fun hc => h hc.symm
    unfold getDoc
    rw [List.find?_append]
    cases hfind : d.find? (fun p => p.1 == k2) with
    | none => simp [List.find?, hk2]
    | some q => simp

theorem hasDoc_setDoc_ne (d : Doc) (k k2 : String) (v : Value) (h : k2 ≠ k) :
    hasDoc (setDoc d k v) k2 = hasDoc d k2 := by
  unfold setDoc
  by_cases hk : hasDoc d k
  · rw [if_pos hk]
    unfold hasDoc
    rw [List.any_map, setDoc_comp_key k k2 v]
  · rw [if_neg hk]
    have hk2 : ((k : String) == k2) = false := by
      simp only [beq_eq_false_iff_ne, ne_eq]
      exact fun hc => h hc.symm
    simp [hasDoc, List.any_append, hk2]

theorem getDoc_deleteDoc (d : Doc) (k k2 : String) :
    getDoc (deleteDoc d k) k2 = if k2 = k then none else getDoc d k2 := by
  by_cases h : k2 = k
  · subst h
    rw [if_pos rfl]
    apply getDoc_eq_none_of_hasDoc_eq_false
    unfold hasDoc deleteDoc
    rw [List.any_eq_false]
    intro p hp
    have := List.of_mem_filter hp
    simp only [bne_iff_ne, ne_eq] at this
    simpa using this
  · rw [if_neg h]
    unfold getDoc deleteDoc
    induction d with
    | nil => rfl
    | cons p rest ih =>
      rw [List.filter_cons]
      by_cases hpk : (p.1 != k) = true
      · rw [if_pos hpk]
        by_cases hp2 : (p.1 == k2) = true
        · simp only [List.find?, hp2]
        · have hp2f : (p.1 == k2) = false := by simpa using hp2
          simp only [List.find?, hp2f]
          exact ih
      · rw [if_neg hpk]
        have hpk2 : p.1 = k := by simpa using hpk
        have hp2f : (p.1 == k2) = false := by
          simp only [beq_eq_false_iff_ne, ne_eq]
          exact fun hc => h (by rw [← hc, hpk2])
        simp only [List.find?, hp2f]
        exact ih

theorem getDoc_foldl_deleteDoc (ks : List String) (d : Doc) (k : String) :
    getDoc (ks.foldl deleteDoc d) k = if k ∈ ks then none else getDoc d k := by
  induction ks generalizing d with
  | nil => simp
  | cons k2 rest ih =>
    rw [List.foldl_cons, ih]
    by_cases hmem : k ∈ rest
    · simp [hmem]
    · by_cases hk : k = k2
      · simp [hmem, hk, getDoc_deleteDoc]
      · simp [hmem, hk, getDoc_deleteDoc]

theorem pullOnce_eq_filter (xs : List Value) (v : Value) :
    pullOnce xs v = xs.filter (fun x => !jsStrictEq x v) := by
  unfold pullOnce
  by_cases h : xs.any (fun x => jsStrictEq x v)
  · rw [if_pos h]
  · rw [if_neg h]
    have hall : ∀ x ∈ xs, jsStrictEq x v = false := by
      intro x hx
      have := List.any_eq_false.mp (by simpa using h) x hx
      simpa using this
    rw [List.filter_eq_self.mpr]
    intro x hx
    simp [hall x hx]

theorem foldl_pullOnce_eq_filter (vs : List Value) (xs : List Value) :
    vs.foldl pullOnce xs = xs.filter (fun x => !vs.any (fun v => jsStrictEq x v)) := by
  induction vs generalizing xs with
  | nil => simp
  | cons v rest ih =>
    rw [List.foldl_cons, ih, pullOnce_eq_filter, List.filter_filter]
    congr 1
    funext x
    by_cases h : jsStrictEq x v = true <;> simp [h]

theorem seed_fold_preserves (defs : List DefEntry) (st : FS) (k : String) (v : Value)
    (h : getStore st k = some v) :
    getStore
      (defs.foldl
        (fun s e => if hasStore s e.varName then s else setStore s e.varName e.value)
        st) k = some v := by
  induction defs generalizing st with
  | nil => exact h
  | cons e rest ih =>
    rw [List.foldl_cons]
    by_cases he : hasStore st e.varName
    · rw [if_pos he]
      exact ih st h
    · rw [if_neg he]
      apply ih
      by_cases hek : e.varName = k
      · exfalso
        apply he
        rw [hek]
        exact hasDoc_of_getDoc_eq_some h
      · unfold getStore setStore
        rw [FS.load_write]
        rw [getDoc_setDoc_ne _ _ _ _ (fun hc => hek hc.symm)]
        exact h

theorem seed_fold_sets (k : String) (v : Value) :
    ∀ (defs : List DefEntry) (st : FS),
      (defs.map DefEntry.varName).Nodup →
      hasStore st k = false →
      (⟨k, v⟩ : DefEntry) ∈ defs →
      getStore
        (defs.foldl
          (fun s e => if hasStore s e.varName then s else setStore s e.varName e.value)
          st) k = some v := by
  intro defs
  induction defs with
  | nil =>
    intro st _ _ hmem
    cases hmem
  | cons e rest ih =>
    intro st hnodup habs hmem
    rw [List.foldl_cons]
    rcases List.mem_cons.mp hmem with heq | hrest
    · subst heq
      rw [if_neg (by simp [hasStore] at habs ⊢; exact habs)]
      apply seed_fold_preserves
      unfold getStore setStore
      rw [FS.load_write]
      exact getDoc_setDoc_self _ _ _
    · have hek : e.varName ≠ k := by
        intro hc
        have hkmem : k ∈ rest.map DefEntry.varName :=
          List.mem_map_of_mem DefEntry.varName hrest
        exact (List.nodup_cons.mp hnodup).1 (hc ▸ hkmem)
      have hnodup2 := (List.nodup_cons.mp hnodup).2
      by_cases he : hasStore st e.varName
      · rw [if_pos he]
        exact ih st hnodup2 habs hrest
      · rw [if_neg he]
        apply ih _ hnodup2 _ hrest
        unfold hasStore setStore
        rw [FS.load_write]
        rw [hasDoc_setDoc_ne _ _ _ _ (fun hc => hek hc.symm)]
        exact habs

/-! ## Claim theorems -/

/-- C3 (counterexample): the claim says construction fails with
`InvalidExtensionError` exactly when the path does not end in `.yaml` or
`.yml`; but for a non-existing path with a bad extension the constructor
raises `NotFoundError` (the existence check runs first), so the
"exactly when" fails. -/
theorem ctor_ext_check_counterexample :
    ctorChecks false "missing.txt" = some CtorError.notFound ∧
    yamlExt "missing.txt" = false ∧
    ctorChecks false "missing.txt" ≠ some CtorError.invalidExtension :=
  ⟨rfl, by decide, by decide⟩

/-- C3 (amended): construction fails with `NotFoundError` exactly when the
path does not exist; it fails with `InvalidExtensionError` exactly when the
path exists but does not end in `.yaml` or `.yml`; and it passes both checks
exactly when the path exists and has an accepted extension (in particular an
existing `.yaml`/`.yml` path never raises `InvalidExtensionError`). -/
theorem ctor_checks_characterization (pathExists : Bool) (path : String) :
    (ctorChecks pathExists path = some CtorError.notFound ↔ pathExists = false) ∧
    (ctorChecks pathExists path = some CtorError.invalidExtension ↔
      (pathExists = true ∧ yamlExt path = false)) ∧
    (ctorChecks pathExists path = none ↔
      (pathExists = true ∧ yamlExt path = true)) := by
  cases pathExists <;> cases hy : yamlExt path <;> simp [ctorChecks, hy]

/-- C4: `push` and `pull` on a key absent from the document both return `-1`
and leave the state (file content and write count) untouched. -/
theorem push_pull_absent_key (st : FS) (k : String) (vs ws : List Value)
    (h : hasStore st k = false) :
    pushStore st k vs = (Except.ok (-1), st) ∧
    pullStore st k ws = (Except.ok (-1), st) := by
  unfold hasStore at h
  unfold pushStore pullStore
  simp [h]

theorem push_pull_absent_key_witness :
    hasStore ⟨none, 0⟩ "k" = false ∧
    pushStore ⟨none, 0⟩ "k" [Value.num 1] = (Except.ok (-1), ⟨none, 0⟩) ∧
    pullStore ⟨none, 0⟩ "k" [Value.num 1] = (Except.ok (-1), ⟨none, 0⟩) :=
  ⟨rfl, (push_pull_absent_key ⟨none, 0⟩ "k" [Value.num 1] [Value.num 1] rfl).1,
    (push_pull_absent_key ⟨none, 0⟩ "k" [Value.num 1] [Value.num 1] rfl).2⟩

/-- C5: `clear()` leaves an empty document and the zero-length file after one
call and after two calls; the write of a zero-key document produces the empty
byte string — of length zero and independent of the serializer, which is
never consulted. -/
theorem clear_idempotent_zero_length (st : FS) (ser ser2 : Doc → String) :
    (clearStore st).load = [] ∧
    (clearStore (clearStore st)).load = [] ∧
    (clearStore st).file = none ∧
    (clearStore (clearStore st)).file = none ∧
    fileBytes ser (clearStore st).file = "" ∧
    (fileBytes ser (clearStore st).file).length = 0 ∧
    writeBytes ser [] = "" ∧
    writeBytes ser [] = writeBytes ser2 [] :=
  ⟨rfl, rfl, rfl, rfl, rfl, rfl, rfl, rfl⟩

/-- C6: for a key not in the document, `has` is `false`, `get` is the absent
marker, and `set` followed by `get` returns the value just set. -/
theorem has_get_set_roundtrip (st : FS) (k : String) (v : Value)
    (h : k ∉ keysDoc st.load) :
    hasStore st k = false ∧
    getStore st k = none ∧
    getStore (setStore st k v) k = some v := by
  have hf : hasDoc st.load k = false := hasDoc_eq_false_of_not_mem_keys h
  refine ⟨hf, getDoc_eq_none_of_hasDoc_eq_false hf, ?_⟩
  unfold getStore setStore
  rw [FS.load_write]
  exact getDoc_setDoc_self _ _ _

theorem has_get_set_roundtrip_witness :
    "age" ∉ keysDoc (FS.load ⟨some [("name", Value.str "John")], 0⟩) ∧
    hasStore ⟨some [("name", Value.str "John")], 0⟩ "age" = false ∧
    getStore ⟨some [("name", Value.str "John")], 0⟩ "age" = none ∧
    getStore (setStore ⟨some [("name", Value.str "John")], 0⟩ "age" (Value.num 24)) "age" =
      some (Value.num 24) := by
  have h : "age" ∉ keysDoc (FS.load ⟨some [("name", Value.str "John")], 0⟩) := by
    decide
  have h2 := has_get_set_roundtrip ⟨some [("name", Value.str "John")], 0⟩ "age" (Value.num 24) h
  exact ⟨h, h2.1, h2.2.1, h2.2.2⟩

/-- C8: `purge` performs exactly one write whatever the key list, removes
exactly the given keys, and leaves the binding of every other key
unchanged. -/
theorem purge_frame_single_write (st : FS) (ks : List String) :
    (purgeStore st ks).writes = st.writes + 1 ∧
    ∀ k, getStore (purgeStore st ks) k = if k ∈ ks then none else getStore st k := by
  refine ⟨rfl, ?_⟩
  intro k
  unfold getStore purgeStore
  rw [FS.load_write]
  exact getDoc_foldl_deleteDoc ks st.load k

/-- C10: `push` on a key whose stored value is not sequence-shaped raises a
`TypeError` (`.push` is not a function on scalars and mappings) and returns
the state unchanged: no write happened. -/
theorem push_non_sequence_error (st : FS) (k : String) (vs : List Value) (v : Value)
    (hget : getStore st k = some v) (hns : ∀ xs, v ≠ Value.seq xs) :
    pushStore st k vs =
      (Except.error "TypeError: data[variable].push is not a function", st) := by
  unfold getStore at hget
  have hhas : hasDoc st.load k = true := hasDoc_of_getDoc_eq_some hget
  unfold pushStore
  cases v with
  | seq xs => exact absurd rfl (hns xs)
  | null => simp [hget, hhas]
  | bool b => simp [hget, hhas]
  | num n => simp [hget, hhas]
  | str s => simp [hget, hhas]
  | map m => simp [hget, hhas]

theorem push_non_sequence_error_witness :
    getStore ⟨some [("k", Value.num 5)], 0⟩ "k" = some (Value.num 5) ∧
    (∀ xs, Value.num 5 ≠ Value.seq xs) ∧
    pushStore ⟨some [("k", Value.num 5)], 0⟩ "k" [Value.num 1] =
      (Except.error "TypeError: data[variable].push is not a function",
        ⟨some [("k", Value.num 5)], 0⟩) := by
  refine ⟨rfl, ?_, ?_⟩
  · intro xs h
    cases h
  · exact push_non_sequence_error ⟨some [("k", Value.num 5)], 0⟩ "k" [Value.num 1]
      (Value.num 5) rfl (by intro xs h; cases h)

/-- C1 (counterexample): the stored sequence contains an element structurally
equal to the given composite value, yet `pull` removes nothing — it returns
the untouched length `2` and the element is still present — because `includes`
and `!==` compare composite values by reference. -/
theorem pull_structural_equality_counterexample :
    Value.seq [Value.num 1] ∈ [Value.seq [Value.num 1], Value.num 2] ∧
    (pullStore ⟨some [("k", Value.seq [Value.seq [Value.num 1], Value.num 2])], 0⟩ "k"
        [Value.seq [Value.num 1]]).1 = Except.ok 2 ∧
    getStore (pullStore ⟨some [("k", Value.seq [Value.seq [Value.num 1], Value.num 2])], 0⟩ "k"
        [Value.seq [Value.num 1]]).2 "k" =
      some (Value.seq [Value.seq [Value.num 1], Value.num 2]) :=
  ⟨List.mem_cons_self _ _, rfl, rfl⟩

/-- C1 (amended): on a key holding a sequence, `pull` removes all occurrences
of each given value under JS strict equality — scalars by value, composite
values never (the freshly loaded elements are distinct references from the
arguments) — performs exactly one write even when nothing matched, returns
the resulting length, and leaves every other key unchanged. -/
theorem pull_strict_equality_spec (st : FS) (k : String) (vs xs : List Value)
    (h : getStore st k = some (Value.seq xs)) :
    (pullStore st k vs).1 =
      Except.ok ((xs.filter (fun x => !vs.any (fun v => jsStrictEq x v))).length : Int) ∧
    (pullStore st k vs).2.writes = st.writes + 1 ∧
    getStore (pullStore st k vs).2 k =
      some (Value.seq (xs.filter (fun x => !vs.any (fun v => jsStrictEq x v)))) ∧
    ∀ k2, k2 ≠ k → getStore (pullStore st k vs).2 k2 = getStore st k2 := by
  unfold getStore at h
  have hhas : hasDoc st.load k = true := hasDoc_of_getDoc_eq_some h
  unfold pullStore
  simp only [h, hhas, Bool.not_true, Bool.false_eq_true, if_false,
    foldl_pullOnce_eq_filter]
  refine ⟨trivial, rfl, ?_, ?_⟩
  · unfold getStore
    rw [FS.load_write]
    exact getDoc_setDoc_self _ _ _
  · intro k2 hk2
    unfold getStore
    rw [FS.load_write]
    exact getDoc_setDoc_ne _ _ _ _ hk2

theorem pull_strict_equality_spec_witness :
    getStore ⟨some [("langs", Value.seq [Value.str "English", Value.str "French",
        Value.str "English"])], 3⟩ "langs" =
      some (Value.seq [Value.str "English", Value.str "French", Value.str "English"]) ∧
    (pullStore ⟨some [("langs", Value.seq [Value.str "English", Value.str "French",
        Value.str "English"])], 3⟩ "langs" [Value.str "English"]).1 = Except.ok 1 ∧
    (pullStore ⟨some [("langs", Value.seq [Value.str "English", Value.str "French",
        Value.str "English"])], 3⟩ "langs" [Value.str "English"]).2.writes = 4 ∧
    getStore (pullStore ⟨some [("langs", Value.seq [Value.str "English", Value.str "French",
        Value.str "English"])], 3⟩ "langs" [Value.str "English"]).2 "langs" =
      some (Value.seq [Value.str "French"]) := by
  have h := pull_strict_equality_spec
    ⟨some [("langs", Value.seq [Value.str "English", Value.str "French",
      Value.str "English"])], 3⟩ "langs" [Value.str "English"]
    [Value.str "English", Value.str "French", Value.str "English"] rfl
  refine ⟨rfl, ?_, h.2.1, ?_⟩
  · have h1 := h.1
    simpa using h1
  · have h3 := h.2.2.1
    simpa using h3

/-- C2: `forEach` passes each entry's own value, key and index in order, but
`map` is off by one on the key — at step `i` it passes the value of entry `i`
together with the key of entry `i + 1` (`undefined`, modelled `none`, at the
last step), contradicting both the claim and `map`'s own documentation. -/
theorem map_key_off_by_one :
    forEachCalls ⟨some [("a", Value.num 1), ("b", Value.num 2)], 0⟩ =
      [(Value.num 1, "a", 0), (Value.num 2, "b", 1)] ∧
    mapCalls ⟨some [("a", Value.num 1), ("b", Value.num 2)], 0⟩ =
      [(some (Value.num 1), some "b", 0), (some (Value.num 2), none, 1)] :=
  ⟨rfl, rfl⟩

/-- C7 (counterexample): a non-empty document whose first value is `false`
(resp. whose last value is `0`) makes `first()` (resp. `last()`) return the
absent marker, because of the `|| undefined` coalescing — refuting "absent
exactly when the document is empty". -/
theorem first_last_falsy_counterexample :
    sizeStore ⟨some [("k", Value.bool false), ("m", Value.num 3)], 0⟩ = 2 ∧
    (valuesStore ⟨some [("k", Value.bool false), ("m", Value.num 3)], 0⟩)[0]? =
      some (Value.bool false) ∧
    firstStore ⟨some [("k", Value.bool false), ("m", Value.num 3)], 0⟩ = none ∧
    (valuesStore ⟨some [("m", Value.num 3), ("k", Value.num 0)], 0⟩)[1]? =
      some (Value.num 0) ∧
    lastStore ⟨some [("m", Value.num 3), ("k", Value.num 0)], 0⟩ = none :=
  ⟨rfl, rfl, rfl, rfl, rfl⟩

/-- C7 (amended): `first()`/`last()` return the value at the first/last
position of `values()` when that value is truthy, and the absent marker when
the document is empty or when that value is falsy (`false`, `0`, the empty
string, `null`). -/
theorem first_last_truthy_spec (st : FS) :
    (sizeStore st = 0 → firstStore st = none ∧ lastStore st = none) ∧
    (∀ v, (valuesStore st)[0]? = some v →
      firstStore st = if jsTruthy v then some v else none) ∧
    (∀ v, (valuesStore st).getLast? = some v →
      lastStore st = if jsTruthy v then some v else none) := by
  refine ⟨?_, ?_, ?_⟩
  · intro h
    have hnil : st.load = [] := by
      have : (st.load.map Prod.fst).length = 0 := h
      simpa using this
    unfold firstStore lastStore valuesStore valuesDoc
    rw [hnil]
    exact ⟨rfl, rfl⟩
  · intro v hv
    unfold firstStore
    rw [hv]
    rfl
  · intro v hv
    unfold lastStore
    have hlen : sizeStore st = (valuesStore st).length := by
      unfold sizeStore keysStore keysDoc valuesStore valuesDoc
      simp
    rw [hlen, ← List.getLast?_eq_getElem?, hv]
    rfl

theorem first_last_truthy_spec_witness :
    firstStore ⟨none, 0⟩ = none ∧
    lastStore ⟨none, 0⟩ = none ∧
    firstStore ⟨some [("a", Value.num 5), ("b", Value.str "x")], 0⟩ = some (Value.num 5) ∧
    lastStore ⟨some [("a", Value.num 5), ("b", Value.str "x")], 0⟩ = some (Value.str "x") := by
  have h0 := (first_last_truthy_spec ⟨none, 0⟩).1 rfl
  have h1 := (first_last_truthy_spec ⟨some [("a", Value.num 5), ("b", Value.str "x")], 0⟩).2.1
    (Value.num 5) rfl
  have h2 := (first_last_truthy_spec ⟨some [("a", Value.num 5), ("b", Value.str "x")], 0⟩).2.2
    (Value.str "x") rfl
  exact ⟨h0.1, h0.2, by simpa using h1, by simpa using h2⟩

/-- C9: default seeding at construction never overwrites an existing binding
(even one bound to `false`); with `setValuesOnReady = false` nothing happens;
and with distinct declared variables every entry whose variable is absent
ends up set to its declared value. -/
theorem ctor_defaults_spec (st : FS) (defs : List DefEntry) (k : String) (v : Value) :
    (∀ b, getStore st k = some v → getStore (ctorSeed st b defs) k = some v) ∧
    ctorSeed st false defs = st ∧
    ((defs.map DefEntry.varName).Nodup → hasStore st k = false →
      (⟨k, v⟩ : DefEntry) ∈ defs →
      getStore (ctorSeed st true defs) k = some v) := by
  refine ⟨?_, ?_, ?_⟩
  · intro b h
    unfold ctorSeed
    split
    · exact seed_fold_preserves defs st k v h
    · exact h
  · unfold ctorSeed
    simp
  · intro hnodup habs hmem
    have hlen : 0 < defs.length := List.length_pos.mpr (List.ne_nil_of_mem hmem)
    unfold ctorSeed
    rw [if_pos (by simp [hlen])]
    exact seed_fold_sets k v defs st hnodup habs hmem

theorem ctor_defaults_spec_witness :
    getStore ⟨some [("alive", Value.bool false)], 0⟩ "alive" = some (Value.bool false) ∧
    getStore (ctorSeed ⟨some [("alive", Value.bool false)], 0⟩ true
        [⟨"alive", Value.bool true⟩]) "alive" = some (Value.bool false) ∧
    ([⟨"alive", Value.bool true⟩].map DefEntry.varName).Nodup ∧
    hasStore ⟨none, 0⟩ "alive" = false ∧
    (⟨"alive", Value.bool true⟩ : DefEntry) ∈ [(⟨"alive", Value.bool true⟩ : DefEntry)] ∧
    getStore (ctorSeed ⟨none, 0⟩ true [⟨"alive", Value.bool true⟩]) "alive" =
      some (Value.bool true) := by
  refine ⟨rfl, ?_, by simp, rfl, List.mem_singleton.mpr rfl, ?_⟩
  · exact (ctor_defaults_spec ⟨some [("alive", Value.bool false)], 0⟩
      [⟨"alive", Value.bool true⟩] "alive" (Value.bool false)).1 true rfl
  · exact (ctor_defaults_spec ⟨none, 0⟩ [⟨"alive", Value.bool true⟩] "alive"
      (Value.bool true)).2.2 (by simp) rfl (List.mem_singleton.mpr rfl)
